import Mathlib

/-!
Verification of the Nig Tax Calculator server (src/server.js).

The development shallowly embeds the server's data and control flow:

* JSON values (`Json`) with the decimal-token number representation that
  `JSON.stringify` emits (sign, integer digits, fraction digits; the
  printer never emits exponent notation, so the model omits it).
* `strVal` models `JSON.stringify(v, gap)`: with `p = true` it is
  `JSON.stringify(v, null, 2)` (2-space indentation), with `p = false`
  it is the compact `JSON.stringify(v)`.
* `parseVal`/`jsonParse` model `JSON.parse` (fuel-indexed recursive
  descent; fuel `length + 1` always suffices, as proved below).
* `handleRequest` models the `http.createServer` callback: CORS headers,
  OPTIONS preflight, `GET /config`, static file serving, `POST
  /update-config`, and the 405 fallback.  The "world" carries the
  configuration file contents (`none` = missing or unreadable), a flag
  for whether `fs.writeFileSync` succeeds, and the static file system.
* `extname`/`getContentType` model `path.extname` plus the MIME table;
  `normSegs` models the `..`-resolution `path.join` performs.

Strings are modelled as `List Char` throughout.
-/

def lc (s : String) : List Char := s.toList

def lbr : Char := Char.ofNat 123

def rbr : Char := Char.ofNat 125

/-- JSON values as `JSON.stringify` prints them: numbers are decimal
tokens (negative sign, integer digits, fraction digits), matching the
source's pretty-printed config file.  Object member order is kept. -/
inductive Json where
  | null : Json
  | bool (b : Bool) : Json
  | num (neg : Bool) (ip : List Nat) (fp : List Nat) : Json
  | str (s : List Char) : Json
  | arr (elems : List Json) : Json
  | obj (members : List (List Char × Json)) : Json
deriving Repr

mutual

/-- Structural equality test for `Json` (deep equality). -/
def jeq : Json → Json → Bool
  | .null, .null => true
  | .bool a, .bool b => a == b
  | .num n1 i1 f1, .num n2 i2 f2 => n1 == n2 && i1 == i2 && f1 == f2
  | .str a, .str b => a == b
  | .arr a, .arr b => jeqL a b
  | .obj a, .obj b => jeqM a b
  | _, _ => false

def jeqL : List Json → List Json → Bool
  | [], [] => true
  | x :: xs, y :: ys => jeq x y && jeqL xs ys
  | _, _ => false

def jeqM : List (List Char × Json) → List (List Char × Json) → Bool
  | [], [] => true
  | (k1, v1) :: xs, (k2, v2) :: ys => k1 == k2 && jeq v1 v2 && jeqM xs ys
  | _, _ => false

end

def digitsOk (ds : List Nat) : Bool := ds.all (fun d => decide (d < 10))

mutual

/-- Well-formedness: number tokens have a nonempty integer part and
digit entries below 10.  `JSON.stringify` output always satisfies this. -/
def wf : Json → Bool
  | .null => true
  | .bool _ => true
  | .num _ ip fp => !ip.isEmpty && digitsOk ip && digitsOk fp
  | .str _ => true
  | .arr xs => wfL xs
  | .obj ms => wfM ms

def wfL : List Json → Bool
  | [] => true
  | x :: xs => wf x && wfL xs

def wfM : List (List Char × Json) → Bool
  | [] => true
  | (_, v) :: ms => wf v && wfM ms

end

mutual

/-- Fuel bound for the parser: enough fuel to parse the printed form. -/
def jsize : Json → Nat
  | .null => 1
  | .bool _ => 1
  | .num _ _ _ => 1
  | .str _ => 1
  | .arr xs => 1 + jsizeL xs
  | .obj ms => 1 + jsizeM ms

def jsizeL : List Json → Nat
  | [] => 1
  | x :: xs => 1 + max (jsize x) (jsizeL xs)

def jsizeM : List (List Char × Json) → Nat
  | [] => 1
  | (_, v) :: ms => 1 + max (1 + jsize v) (jsizeM ms)

end

def digCh (d : Nat) : Char := Char.ofNat (48 + d)

def digVal (c : Char) : Nat := c.toNat - 48

def isDigitCh (c : Char) : Bool := 48 ≤ c.toNat && c.toNat ≤ 57

def hexCh (n : Nat) : Char := if n < 10 then Char.ofNat (48 + n) else Char.ofNat (87 + n)

def isHexCh (c : Char) : Bool :=
  (48 ≤ c.toNat && c.toNat ≤ 57) || (97 ≤ c.toNat && c.toNat ≤ 102) ||
    (65 ≤ c.toNat && c.toNat ≤ 70)

def hexVal (c : Char) : Nat :=
  if c.toNat ≤ 57 then c.toNat - 48 else if c.toNat ≤ 70 then c.toNat - 55 else c.toNat - 87

/-- One string character as `JSON.stringify` escapes it: quote and
backslash get a backslash escape, the named control characters get their
short forms, other controls get `\u00XX` (lowercase hex), everything
else is emitted literally. -/
def escapeChar (c : Char) : List Char :=
  if c = '\"' then ['\\', '\"']
  else if c = '\\' then ['\\', '\\']
  else if c = Char.ofNat 8 then ['\\', 'b']
  else if c = '\t' then ['\\', 't']
  else if c = '\n' then ['\\', 'n']
  else if c = Char.ofNat 12 then ['\\', 'f']
  else if c = '\r' then ['\\', 'r']
  else if c.toNat < 32 then ['\\', 'u', '0', '0', hexCh (c.toNat / 16), hexCh (c.toNat % 16)]
  else [c]

def escList : List Char → List Char
  | [] => []
  | c :: cs => escapeChar c ++ escList cs

def nlIndent (n : Nat) : List Char := '\n' :: List.replicate n ' '

/-- Separator inserted by `JSON.stringify` when a gap is configured. -/
def sepIf (p : Bool) (n : Nat) : List Char := if p then nlIndent n else []

mutual

/-- `JSON.stringify(v, null, 2)` when `p = true` (the form `writeConfig`
persists), the compact `JSON.stringify(v)` when `p = false` (the form
the HTTP responses carry); `ind` is the current indentation width. -/
def strVal (p : Bool) (ind : Nat) : Json → List Char
  | .null => lc "null"
  | .bool true => lc "true"
  | .bool false => lc "false"
  | .num neg ip fp =>
      (if neg then ['-'] else []) ++ ip.map digCh ++
        (if fp.isEmpty then [] else '.' :: fp.map digCh)
  | .str s => '\"' :: (escList s ++ ['\"'])
  | .arr [] => ['[', ']']
  | .arr (x :: xs) =>
      '[' :: (sepIf p (ind + 2) ++ strVal p (ind + 2) x ++ strItems p (ind + 2) xs ++
        sepIf p ind ++ [']'])
  | .obj [] => [lbr, rbr]
  | .obj (m :: ms) =>
      lbr :: (sepIf p (ind + 2) ++ strMember p (ind + 2) m ++ strMembers p (ind + 2) ms ++
        sepIf p ind ++ [rbr])

def strMember (p : Bool) (ind : Nat) : List Char × Json → List Char
  | (k, v) => '\"' :: (escList k ++ '\"' :: ':' :: ((if p then [' '] else []) ++ strVal p ind v))

def strItems (p : Bool) (ind : Nat) : List Json → List Char
  | [] => []
  | y :: ys => ',' :: (sepIf p ind ++ strVal p ind y ++ strItems p ind ys)

def strMembers (p : Bool) (ind : Nat) : List (List Char × Json) → List Char
  | [] => []
  | m :: ms => ',' :: (sepIf p ind ++ strMember p ind m ++ strMembers p ind ms)

end

def isWsCh (c : Char) : Bool := c = ' ' || c = '\t' || c = '\n' || c = '\r'

def skipWs (s : List Char) : List Char := s.dropWhile isWsCh

/-- Matches a fixed literal tail (e.g. `ull` after `n`) and returns the
remainder of the input. -/
def afterLit : List Char → List Char → Option (List Char)
  | [], s => some s
  | _ :: _, [] => none
  | c :: pat, x :: s => if x = c then afterLit pat s else none

/-- Prepends a decoded character to the result of a string scan. -/
def consFst (c : Char) : Option (List Char × List Char) → Option (List Char × List Char)
  | some (cs, r2) => some (c :: cs, r2)
  | none => none

mutual

/-- String-body scanner of `JSON.parse`: input starts after the opening
quote, output is the decoded characters and the input after the closing
quote.  Literal control characters are rejected, as `JSON.parse` does. -/
def parseStringRest : List Char → Option (List Char × List Char)
  | [] => none
  | c :: r =>
    if c = '\"' then some ([], r)
    else if c = '\\' then parseEscape r
    else if c.toNat < 32 then none
    else consFst c (parseStringRest r)

/-- Decodes one backslash escape, then continues scanning the string. -/
def parseEscape : List Char → Option (List Char × List Char)
  | [] => none
  | c :: r =>
    if c = '\"' ∨ c = '\\' ∨ c = '/' then consFst c (parseStringRest r)
    else if c = 'b' then consFst (Char.ofNat 8) (parseStringRest r)
    else if c = 't' then consFst '\t' (parseStringRest r)
    else if c = 'n' then consFst '\n' (parseStringRest r)
    else if c = 'f' then consFst (Char.ofNat 12) (parseStringRest r)
    else if c = 'r' then consFst '\r' (parseStringRest r)
    else if c = 'u' then
      match r with
      | a :: b :: c2 :: d :: r2 =>
        if isHexCh a && isHexCh b && isHexCh c2 && isHexCh d then
          consFst (Char.ofNat (hexVal a * 4096 + hexVal b * 256 + hexVal c2 * 16 + hexVal d))
            (parseStringRest r2)
        else none
      | _ => none
    else none

end

/-- Number scanner of `JSON.parse` restricted to the tokens the printer
emits (optional sign handled by the caller, digits, optional fraction;
exponent notation is not modelled since `strVal` never emits it). -/
def parseNum (neg : Bool) (s : List Char) : Option (Json × List Char) :=
  let ip := s.takeWhile isDigitCh
  let r1 := s.dropWhile isDigitCh
  if ip.isEmpty then none
  else
    match r1 with
    | c :: r2 =>
      if c = '.' then
        let fp := r2.takeWhile isDigitCh
        if fp.isEmpty then none
        else some (Json.num neg (ip.map digVal) (fp.map digVal), r2.dropWhile isDigitCh)
      else some (Json.num neg (ip.map digVal) [], c :: r2)
    | [] => some (Json.num neg (ip.map digVal) [], [])

mutual

/-- Fuel-indexed value parser of `JSON.parse`; returns the value and the
unconsumed remainder. -/
def parseVal : Nat → List Char → Option (Json × List Char)
  | 0, _ => none
  | fuel + 1, s =>
    match skipWs s with
    | [] => none
    | c :: r =>
      if c = 'n' then
        match afterLit (lc "ull") r with
        | some r2 => some (Json.null, r2)
        | none => none
      else if c = 't' then
        match afterLit (lc "rue") r with
        | some r2 => some (Json.bool true, r2)
        | none => none
      else if c = 'f' then
        match afterLit (lc "alse") r with
        | some r2 => some (Json.bool false, r2)
        | none => none
      else if c = '\"' then
        match parseStringRest r with
        | some (cs, r2) => some (Json.str cs, r2)
        | none => none
      else if c = '[' then
        match skipWs r with
        | [] => none
        | c2 :: r2 =>
          if c2 = ']' then some (Json.arr [], r2)
          else
            match parseVal fuel r with
            | some (x, r3) =>
              match parseArrItems fuel r3 with
              | some (xs, r4) => some (Json.arr (x :: xs), r4)
              | none => none
            | none => none
      else if c = lbr then
        match skipWs r with
        | [] => none
        | c2 :: r2 =>
          if c2 = rbr then some (Json.obj [], r2)
          else
            match parseMember fuel r with
            | some (m, r3) =>
              match parseObjItems fuel r3 with
              | some (ms, r4) => some (Json.obj (m :: ms), r4)
              | none => none
            | none => none
      else if c = '-' then parseNum true r
      else if isDigitCh c then parseNum false (c :: r)
      else none

/-- Parses `, value , value … ]` after the first array element. -/
def parseArrItems : Nat → List Char → Option (List Json × List Char)
  | 0, _ => none
  | fuel + 1, s =>
    match skipWs s with
    | [] => none
    | c :: r =>
      if c = ']' then some ([], r)
      else if c = ',' then
        match parseVal fuel r with
        | some (x, r2) =>
          match parseArrItems fuel r2 with
          | some (xs, r3) => some (x :: xs, r3)
          | none => none
        | none => none
      else none

/-- Parses one `"key" : value` object member. -/
def parseMember : Nat → List Char → Option ((List Char × Json) × List Char)
  | 0, _ => none
  | fuel + 1, s =>
    match skipWs s with
    | [] => none
    | c :: r =>
      if c = '\"' then
        match parseStringRest r with
        | some (k, r2) =>
          match skipWs r2 with
          | [] => none
          | c2 :: r3 =>
            if c2 = ':' then
              match parseVal fuel r3 with
              | some (v, r4) => some ((k, v), r4)
              | none => none
            else none
        | none => none
      else none

/-- Parses `, member , member … \x7d` after the first object member. -/
def parseObjItems : Nat → List Char → Option (List (List Char × Json) × List Char)
  | 0, _ => none
  | fuel + 1, s =>
    match skipWs s with
    | [] => none
    | c :: r =>
      if c = rbr then some ([], r)
      else if c = ',' then
        match parseMember fuel r with
        | some (m, r2) =>
          match parseObjItems fuel r2 with
          | some (ms, r3) => some (m :: ms, r3)
          | none => none
        | none => none
      else none

end

/-- `JSON.parse`: parse one value, then require only whitespace after. -/
def jsonParse (s : List Char) : Option Json :=
  match parseVal (s.length + 1) s with
  | some (v, r) => if skipWs r = [] then some v else none
  | none => none

def wsOnly (l : List Char) : Bool := l.all isWsCh

/-- The continuation after a printed number token must not begin with a
digit or a dot, or the scanner would consume it into the token. -/
def numSafe : List Char → Bool
  | [] => true
  | c :: _ => !isDigitCh c && !(c == '.')

/-- First character of a printed value: never whitespace, never `]`. -/
def goodHead : List Char → Bool
  | [] => false
  | c :: _ => !isWsCh c && !(c == ']')

def headNotB (q : Char → Bool) : List Char → Bool
  | [] => true
  | c :: _ => !q c

/-- Round-trip statement for one value at a given fuel. -/
abbrev RTV (fuel : Nat) : Prop :=
  ∀ (p : Bool) (i : Nat) (v : Json) (rest : List Char), wf v = true → jsize v ≤ fuel →
    numSafe rest = true → parseVal fuel (strVal p i v ++ rest) = some (v, rest)

/-- Round-trip statement for array tails at a given fuel. -/
abbrev RTA (fuel : Nat) : Prop :=
  ∀ (p : Bool) (i : Nat) (xs : List Json) (w rest : List Char), wfL xs = true →
    jsizeL xs ≤ fuel → wsOnly w = true → numSafe rest = true →
    parseArrItems fuel (strItems p i xs ++ (w ++ ']' :: rest)) = some (xs, rest)

/-- Round-trip statement for one object member at a given fuel. -/
abbrev RTM (fuel : Nat) : Prop :=
  ∀ (p : Bool) (i : Nat) (k : List Char) (v : Json) (rest : List Char), wf v = true →
    1 + jsize v ≤ fuel → numSafe rest = true →
    parseMember fuel (strMember p i (k, v) ++ rest) = some ((k, v), rest)

/-- Round-trip statement for object member tails at a given fuel. -/
abbrev RTO (fuel : Nat) : Prop :=
  ∀ (p : Bool) (i : Nat) (ms : List (List Char × Json)) (w rest : List Char), wfM ms = true →
    jsizeM ms ≤ fuel → wsOnly w = true → numSafe rest = true →
    parseObjItems fuel (strMembers p i ms ++ (w ++ rbr :: rest)) = some (ms, rest)

/-- `readConfig` (src/server.js:24-32): read the file, parse it, and on
any failure (missing/unreadable file modelled as `none`, or malformed
contents) log and return the empty object. -/
def readConfig (file : Option (List Char)) : Json :=
  match file with
  | none => Json.obj []
  | some s =>
    match jsonParse s with
    | some v => v
    | none => Json.obj []

/-- `writeConfig` (src/server.js:39-41): the text persisted is
`JSON.stringify(data, null, 2)`. -/
def writeConfigText (data : Json) : List Char := strVal true 0 data

/-- ASCII lowercasing, as `String.prototype.toLowerCase` acts on the
extension characters relevant here. -/
def lowerCh (c : Char) : Char :=
  if 65 ≤ c.toNat ∧ c.toNat ≤ 90 then Char.ofNat (c.toNat + 32) else c

/-- Suffix of the list starting at its last dot, if any. -/
def tailFromLastDot : List Char → Option (List Char)
  | [] => none
  | c :: r =>
    match tailFromLastDot r with
    | some e => some e
    | none => if c = '.' then some (c :: r) else none

/-- Portion of the path after the last slash. -/
def baseNameOf (pth : List Char) : List Char :=
  pth.foldl (fun acc c => if c = '/' then [] else acc ++ [c]) []

/-- `path.extname`: extension of the basename from its last dot, where a
dot at position 0 (dotfile) and the basenames `.`/`..` yield no
extension. -/
def extname (pth : List Char) : List Char :=
  match baseNameOf pth with
  | [] => []
  | [_] => []
  | c :: brest =>
    if c = '.' ∧ brest = ['.'] then []
    else
      match tailFromLastDot brest with
      | some e => e
      | none => []

/-- `getContentType` (src/server.js:49-64): fixed extension→MIME table,
defaulting to `application/octet-stream`. -/
def getContentType (pth : List Char) : List Char :=
  let e := (extname pth).map lowerCh
  if e = lc ".html" then lc "text/html"
  else if e = lc ".css" then lc "text/css"
  else if e = lc ".js" then lc "application/javascript"
  else if e = lc ".json" then lc "application/json"
  else if e = lc ".png" then lc "image/png"
  else if e = lc ".jpg" then lc "image/jpeg"
  else if e = lc ".jpeg" then lc "image/jpeg"
  else if e = lc ".gif" then lc "image/gif"
  else if e = lc ".svg" then lc "image/svg+xml"
  else if e = lc ".ico" then lc "image/x-icon"
  else lc "application/octet-stream"

def splitSegsAux (cur : List Char) : List Char → List (List Char)
  | [] => [cur.reverse]
  | c :: r => if c = '/' then cur.reverse :: splitSegsAux [] r else splitSegsAux (c :: cur) r

/-- Split a path string into its `/`-separated segments. -/
def splitSegs (s : List Char) : List (List Char) := splitSegsAux [] s

/-- One segment of `path.join` normalization: empty and `.` segments are
dropped, `..` pops the previous segment (staying at the root when there
is none), anything else is appended. -/
def normStep (acc : List (List Char)) (seg : List Char) : List (List Char) :=
  if seg = [] ∨ seg = ['.'] then acc
  else if seg = ['.', '.'] then acc.dropLast
  else acc ++ [seg]

def normSegs (segs : List (List Char)) : List (List Char) := segs.foldl normStep []

/-- `path.join(PUBLIC_DIR, filePath)` (src/server.js:73) at segment
level: concatenate, then normalize — `..` segments are resolved, not
rejected. -/
def resolveStatic (root : List (List Char)) (pth : List Char) : List (List Char) :=
  normSegs (root ++ splitSegs pth)

def renderSegs (segs : List (List Char)) : List Char :=
  segs.foldl (fun a s => a ++ '/' :: s) []

structure Request where
  method : List Char
  url : List Char
  body : List Char
deriving Repr, DecidableEq

structure Response where
  status : Nat
  headers : List (List Char × List Char)
  body : List Char
deriving Repr, DecidableEq

/-- Server-side state an HTTP exchange can observe: the configuration
file contents (`none` when missing or unreadable), whether
`fs.writeFileSync` succeeds, and the static file system keyed by the
resolved path. -/
structure World where
  configFile : Option (List Char)
  diskOk : Bool
  staticFile : List (List Char) → Option (List Char)

def stripQuery (u : List Char) : List Char := u.takeWhile (fun c => !(c == '?'))

/-- The three headers set for API paths (src/server.js:90-92). -/
def corsHdrs : List (List Char × List Char) :=
  [(lc "Access-Control-Allow-Origin", lc "*"),
   (lc "Access-Control-Allow-Methods", lc "GET, POST, OPTIONS"),
   (lc "Access-Control-Allow-Headers", lc "Content-Type")]

/-- `url.startsWith('/config') || url.startsWith('/update-config')`. -/
def isApiPath (url : List Char) : Bool :=
  (lc "/config").isPrefixOf url || (lc "/update-config").isPrefixOf url

def ctHdr : List Char := lc "Content-Type"

/-- Body of the 200 response to `POST /update-config`. -/
def successBody : List Char :=
  strVal false 0 (Json.obj [(lc "status", Json.str (lc "success"))])

/-- Body of the 400 response to `POST /update-config`. -/
def errorBody : List Char :=
  strVal false 0 (Json.obj [(lc "status", Json.str (lc "error")),
    (lc "message", Json.str (lc "Invalid JSON"))])

/-- The `http.createServer` request handler (src/server.js:86-136),
returning the response and the configuration file contents afterwards.
The branches mirror the source: CORS headers and OPTIONS preflight for
API-prefixed paths, `GET /config`, static file serving with `/` mapped
to `/index.html`, `POST /update-config` whose `try` block covers both
`JSON.parse` and `writeConfig` (a write failure is caught by the same
`catch`), and 405 otherwise. -/
def handleRequest (pubRoot : List (List Char)) (w : World) (req : Request) :
    Response × Option (List Char) :=
  let url := stripQuery req.url
  let api := isApiPath url
  let hdr0 := if api then corsHdrs else []
  if api && (req.method == lc "OPTIONS") then
    ({ status := 204, headers := hdr0, body := [] }, w.configFile)
  else if req.method == lc "GET" then
    if url == lc "/config" then
      ({ status := 200, headers := hdr0 ++ [(ctHdr, lc "application/json")],
         body := strVal false 0 (readConfig w.configFile) }, w.configFile)
    else
      let filePath := if url == lc "/" || url == [] then lc "/index.html" else url
      let fullSegs := resolveStatic pubRoot filePath
      match w.staticFile fullSegs with
      | some data =>
        ({ status := 200, headers := hdr0 ++ [(ctHdr, getContentType (renderSegs fullSegs))],
           body := data }, w.configFile)
      | none =>
        ({ status := 404, headers := hdr0 ++ [(ctHdr, lc "text/plain")],
           body := lc "404 Not Found" }, w.configFile)
  else if req.method == lc "POST" && url == lc "/update-config" then
    match jsonParse req.body with
    | some data =>
      if w.diskOk then
        ({ status := 200, headers := hdr0 ++ [(ctHdr, lc "application/json")],
           body := successBody }, some (writeConfigText data))
      else
        ({ status := 400, headers := hdr0 ++ [(ctHdr, lc "application/json")],
           body := errorBody }, w.configFile)
    | none =>
      ({ status := 400, headers := hdr0 ++ [(ctHdr, lc "application/json")],
         body := errorBody }, w.configFile)
  else
    ({ status := 405, headers := hdr0 ++ [(ctHdr, lc "text/plain")],
       body := lc "Method Not Allowed" }, w.configFile)

def emptyStatic : List (List Char) → Option (List Char) := fun _ => none

def rootTest : List (List Char) := [lc "srv", lc "app", lc "public"]

def wTest : World := ⟨none, true, emptyStatic⟩

def vTest : Json := Json.obj [(lc "vat", Json.num false [7] [5])]

def bTest : List Char := lc "\x7b\"vat\":7.5\x7d"

def wBadDisk : World := ⟨some bTest, false, emptyStatic⟩

/-- A request path consisting of `n` parent-directory steps. -/
def dotsPath : Nat → List Char
  | 0 => []
  | n + 1 => '/' :: '.' :: '.' :: dotsPath n

/-- A path segment that join-normalization passes through unchanged. -/
def normalSeg (s : List Char) : Bool := !(s == []) && !(s == ['.']) && !(s == ['.', '.'])

theorem skipWs_cons_not {c : Char} (r : List Char) (h : isWsCh c = false) :
    skipWs (c :: r) = c :: r := by
  simp [skipWs, List.dropWhile, h]

theorem skipWs_append_ws : ∀ (w s : List Char), wsOnly w = true → skipWs (w ++ s) = skipWs s
  | [], _, _ => rfl
  | c :: w, s, h => by
    have hall := h
    simp only [wsOnly, List.all_cons, Bool.and_eq_true] at hall
    simp only [List.cons_append, skipWs, List.dropWhile, hall.1]
    exact skipWs_append_ws w s (by simpa [wsOnly] using hall.2)

theorem skipWs_idem : ∀ s : List Char, skipWs (skipWs s) = skipWs s
  | [] => rfl
  | c :: s => by
    by_cases h : isWsCh c = true
    · simp only [skipWs, List.dropWhile, h]
      exact skipWs_idem s
    · have h' : isWsCh c = false := by simpa using h
      simp only [skipWs, List.dropWhile, h']

theorem goodHead_elim {l : List Char} (h : goodHead l = true) :
    ∃ c t, l = c :: t ∧ isWsCh c = false ∧ c ≠ ']' := by
  match l with
  | [] => simp [goodHead] at h
  | c :: t =>
    refine ⟨c, t, rfl, ?_, ?_⟩
    · simp only [goodHead, Bool.and_eq_true, Bool.not_eq_true'] at h
      exact h.1
    · simp only [goodHead, Bool.and_eq_true, Bool.not_eq_true'] at h
      simpa using h.2

theorem skipWs_goodHead {l : List Char} (s : List Char) (h : goodHead l = true) :
    skipWs (l ++ s) = l ++ s := by
  obtain ⟨c, t, rfl, hws, _⟩ := goodHead_elim h
  simpa using skipWs_cons_not (t ++ s) hws

theorem parseVal_skipWs (fuel : Nat) (s : List Char) :
    parseVal fuel (skipWs s) = parseVal fuel s := by
  cases fuel with
  | zero => rfl
  | succ g => simp only [parseVal, skipWs_idem]

theorem parseMember_skipWs (fuel : Nat) (s : List Char) :
    parseMember fuel (skipWs s) = parseMember fuel s := by
  cases fuel with
  | zero => rfl
  | succ g => simp only [parseMember, skipWs_idem]

theorem digCh_props (d : Nat) (h : d < 10) :
    isDigitCh (digCh d) = true ∧ isWsCh (digCh d) = false ∧ digVal (digCh d) = d ∧
      digCh d ≠ 'n' ∧ digCh d ≠ 't' ∧ digCh d ≠ 'f' ∧ digCh d ≠ '\"' ∧ digCh d ≠ '[' ∧
      digCh d ≠ lbr ∧ digCh d ≠ '-' ∧ digCh d ≠ ']' ∧ digCh d ≠ ',' ∧ digCh d ≠ '.' := by
  interval_cases d <;> exact ⟨by decide, by decide, by decide, by decide, by decide, by decide,
    by decide, by decide, by decide, by decide, by decide, by decide, by decide⟩

theorem ws_numSafe_head {c : Char} (h : isWsCh c = true) :
    isDigitCh c = false ∧ (c == '.') = false := by
  simp only [isWsCh, Bool.or_eq_true, decide_eq_true_eq] at h
  rcases h with ((h | h) | h) | h <;> subst h <;> exact ⟨by decide, by decide⟩

theorem takeWhile_append_all (q : Char → Bool) :
    ∀ (l r : List Char), (∀ c ∈ l, q c = true) → headNotB q r = true →
      (l ++ r).takeWhile q = l ∧ (l ++ r).dropWhile q = r
  | [], r, _, hr => by
    match r with
    | [] => exact ⟨rfl, rfl⟩
    | c :: t =>
      simp only [headNotB, Bool.not_eq_true'] at hr
      simp [List.takeWhile, List.dropWhile, hr]
  | c :: l, r, hl, hr => by
    have hc : q c = true := hl c (by simp)
    have ih := takeWhile_append_all q l r (fun c hm => hl c (by simp [hm])) hr
    simp [List.takeWhile, List.dropWhile, hc, ih.1, ih.2]

theorem digits_roundtrip : ∀ ds : List Nat, digitsOk ds = true → (ds.map digCh).map digVal = ds
  | [], _ => rfl
  | d :: ds, h => by
    simp only [digitsOk, List.all_cons, Bool.and_eq_true, decide_eq_true_eq] at h
    have := (digCh_props d h.1).2.2.1
    simp [this, digits_roundtrip ds (by simpa [digitsOk] using h.2)]

theorem hexCh_roundtrip (n : Nat) (h : n < 16) : isHexCh (hexCh n) = true ∧ hexVal (hexCh n) = n := by
  interval_cases n <;> exact ⟨by decide, by decide⟩


theorem psr_quote (r : List Char) : parseStringRest ('\"' :: r) = some ([], r) := by
  unfold parseStringRest
  simp

theorem psr_bs (r : List Char) : parseStringRest ('\\' :: r) = parseEscape r := by
  unfold parseStringRest
  rw [if_neg (by decide), if_pos rfl]

theorem psr_lit {c : Char} (h1 : c ≠ '\"') (h2 : c ≠ '\\') (h3 : ¬c.toNat < 32) (r : List Char) :
    parseStringRest (c :: r) = consFst c (parseStringRest r) := by
  conv_lhs => unfold parseStringRest
  rw [if_neg h1, if_neg h2, if_neg h3]

theorem pe_quote (r : List Char) : parseEscape ('\"' :: r) = consFst '\"' (parseStringRest r) := by
  unfold parseEscape
  simp

theorem pe_bs (r : List Char) : parseEscape ('\\' :: r) = consFst '\\' (parseStringRest r) := by
  unfold parseEscape
  simp

theorem pe_b (r : List Char) : parseEscape ('b' :: r) = consFst (Char.ofNat 8) (parseStringRest r) := by
  unfold parseEscape
  simp

theorem pe_t (r : List Char) : parseEscape ('t' :: r) = consFst '\t' (parseStringRest r) := by
  unfold parseEscape
  simp

theorem pe_n (r : List Char) : parseEscape ('n' :: r) = consFst '\n' (parseStringRest r) := by
  unfold parseEscape
  simp

theorem pe_f (r : List Char) : parseEscape ('f' :: r) = consFst (Char.ofNat 12) (parseStringRest r) := by
  unfold parseEscape
  simp

theorem pe_r (r : List Char) : parseEscape ('r' :: r) = consFst '\r' (parseStringRest r) := by
  unfold parseEscape
  simp

theorem pe_u (a b c2 d : Char) (r : List Char)
    (h : isHexCh a = true ∧ isHexCh b = true ∧ isHexCh c2 = true ∧ isHexCh d = true) :
    parseEscape ('u' :: a :: b :: c2 :: d :: r) =
      consFst (Char.ofNat (hexVal a * 4096 + hexVal b * 256 + hexVal c2 * 16 + hexVal d))
        (parseStringRest r) := by
  unfold parseEscape
  simp [h.1, h.2.1, h.2.2.1, h.2.2.2]

theorem parseStringRest_esc : ∀ (k rest : List Char),
    parseStringRest (escList k ++ '\"' :: rest) = some (k, rest)
  | [], rest => by simpa [escList] using psr_quote rest
  | c :: cs, rest => by
    have ih := parseStringRest_esc cs rest
    by_cases h1 : c = '\"'
    · subst h1
      simp [escList, escapeChar, psr_bs, pe_quote, consFst, ih]
    by_cases h2 : c = '\\'
    · subst h2
      simp [escList, escapeChar, psr_bs, pe_bs, consFst, ih, h1]
    by_cases h3 : c = Char.ofNat 8
    · subst h3
      simp [escList, escapeChar, psr_bs, pe_b, consFst, ih, h1, h2]
    by_cases h4 : c = '\t'
    · subst h4
      simp [escList, escapeChar, psr_bs, pe_t, consFst, ih, h1, h2, h3]
    by_cases h5 : c = '\n'
    · subst h5
      simp [escList, escapeChar, psr_bs, pe_n, consFst, ih, h1, h2, h3, h4]
    by_cases h6 : c = Char.ofNat 12
    · subst h6
      simp [escList, escapeChar, psr_bs, pe_f, consFst, ih, h1, h2, h3, h4, h5]
    by_cases h7 : c = '\r'
    · subst h7
      simp [escList, escapeChar, psr_bs, pe_r, consFst, ih, h1, h2, h3, h4, h5, h6]
    by_cases h8 : c.toNat < 32
    · have hq : c.toNat / 16 < 16 := by omega
      have hr : c.toNat % 16 < 16 := by omega
      have hqh := hexCh_roundtrip _ hq
      have hrh := hexCh_roundtrip _ hr
      have hval : hexVal '0' * 4096 + hexVal '0' * 256 + hexVal (hexCh (c.toNat / 16)) * 16 +
          hexVal (hexCh (c.toNat % 16)) = c.toNat := by
        rw [hqh.2, hrh.2]
        have h0 : hexVal '0' = 0 := by decide
        rw [h0]
        omega
      have hcc : Char.ofNat c.toNat = c := Char.ofNat_toNat c
      have hu := pe_u '0' '0' (hexCh (c.toNat / 16)) (hexCh (c.toNat % 16))
        (escList cs ++ '\"' :: rest) ⟨by decide, by decide, hqh.1, hrh.1⟩
      simp only [escList, escapeChar, if_neg h1, if_neg h2, if_neg h3, if_neg h4, if_neg h5,
        if_neg h6, if_neg h7, if_pos h8, List.cons_append, List.append_assoc]
      simp [psr_bs, hu, hval, hcc, consFst, ih]
    · simp only [escList, escapeChar, if_neg h1, if_neg h2, if_neg h3, if_neg h4, if_neg h5,
        if_neg h6, if_neg h7, if_neg h8, List.cons_append, List.singleton_append]
      simp [psr_lit h1 h2 h8, consFst, ih]

theorem afterLit_self : ∀ (pat r : List Char), afterLit pat (pat ++ r) = some r
  | [], _ => rfl
  | c :: pat, r => by simp [afterLit, afterLit_self pat r]

theorem wsOnly_sepIf (p : Bool) (n : Nat) : wsOnly (sepIf p n) = true := by
  cases p with
  | false => rfl
  | true =>
    simp only [sepIf, if_true, wsOnly, nlIndent, List.all_cons, Bool.and_eq_true]
    refine ⟨by decide, ?_⟩
    simp only [List.all_eq_true]
    intro c hc
    rw [List.eq_of_mem_replicate hc]
    decide

theorem wsOnly_spc (p : Bool) : wsOnly (if p then [' '] else []) = true := by
  cases p <;> simp [wsOnly, isWsCh]

theorem jsize_pos : ∀ v : Json, 1 ≤ jsize v := by
  intro v
  cases v <;> simp [jsize]

theorem jsizeL_pos (xs : List Json) : 1 ≤ jsizeL xs := by
  cases xs <;> simp [jsizeL]

theorem jsizeM_pos (ms : List (List Char × Json)) : 1 ≤ jsizeM ms := by
  cases ms with
  | nil => simp [jsizeM]
  | cons m ms => obtain ⟨k, v⟩ := m; simp [jsizeM]

theorem numSafe_ws_cons {c : Char} (t : List Char) (h : isWsCh c = true) :
    numSafe (c :: t) = true := by
  have := ws_numSafe_head h
  simp [numSafe, this.1, this.2]

theorem numSafe_wsOnly_append {w : List Char} (t : List Char) (hw : wsOnly w = true)
    (ht : numSafe t = true) : numSafe (w ++ t) = true := by
  cases w with
  | nil => simpa using ht
  | cons c w =>
    simp only [wsOnly, List.all_cons, Bool.and_eq_true] at hw
    exact numSafe_ws_cons _ hw.1

/-- After a printed array element the input continues with `,`, a
whitespace run, or the closing bracket — never a digit or a dot. -/
theorem numSafe_items_cont (p : Bool) (i : Nat) (xs : List Json) (w rest : List Char)
    (hw : wsOnly w = true) : numSafe (strItems p i xs ++ (w ++ ']' :: rest)) = true := by
  cases xs with
  | nil =>
    simp only [strItems, List.nil_append]
    exact numSafe_wsOnly_append _ hw (by simp [numSafe, isDigitCh])
  | cons y ys => simp [strItems, numSafe, isDigitCh]

/-- Same for object members, with the closing brace. -/
theorem numSafe_members_cont (p : Bool) (i : Nat) (ms : List (List Char × Json))
    (w rest : List Char) (hw : wsOnly w = true) :
    numSafe (strMembers p i ms ++ (w ++ rbr :: rest)) = true := by
  cases ms with
  | nil =>
    simp only [strMembers, List.nil_append]
    exact numSafe_wsOnly_append _ hw (by simp only [numSafe]; decide)
  | cons m ms => simp [strMembers, numSafe, isDigitCh]

theorem goodHead_strVal (p : Bool) (i : Nat) (v : Json) (h : wf v = true) :
    goodHead (strVal p i v) = true := by
  cases v with
  | null => simp [strVal, lc, goodHead, isWsCh]
  | bool b => cases b <;> simp [strVal, lc, goodHead, isWsCh]
  | str s => simp [strVal, goodHead, isWsCh]
  | arr xs => cases xs <;> simp [strVal, goodHead, isWsCh]
  | obj ms =>
    have e1 : isWsCh lbr = false := by decide
    have e2 : (lbr == ']') = false := by decide
    cases ms <;> simp [strVal, goodHead, e1, e2]
  | num neg ip fp =>
    simp only [wf, Bool.and_eq_true, Bool.not_eq_true'] at h
    cases neg with
    | true => simp [strVal, goodHead, isWsCh]
    | false =>
      cases ip with
      | nil => simp [List.isEmpty] at h
      | cons d ds =>
        have hd : d < 10 := by
          have := h.1.2
          simp only [digitsOk, List.all_cons, Bool.and_eq_true, decide_eq_true_eq] at this
          exact this.1
        have hp := digCh_props d hd
        simp [strVal, goodHead, hp.2.1, hp.2.2.2.2.2.2.2.2.2.2.1]


theorem mapDigCh_all_digit (ds : List Nat) (h : digitsOk ds = true) :
    ∀ c ∈ ds.map digCh, isDigitCh c = true := by
  intro c hc
  obtain ⟨d, hd, rfl⟩ := List.mem_map.mp hc
  simp only [digitsOk, List.all_eq_true, decide_eq_true_eq] at h
  exact (digCh_props d (h d hd)).1

theorem numSafe_headNotB {rest : List Char} (h : numSafe rest = true) :
    headNotB isDigitCh rest = true := by
  cases rest with
  | nil => rfl
  | cons c t =>
    simp only [numSafe, Bool.and_eq_true, Bool.not_eq_true'] at h
    simp [headNotB, h.1]

theorem parseNum_spec (neg : Bool) (ip fp : List Nat) (rest : List Char)
    (h1 : ip ≠ []) (h2 : digitsOk ip = true) (h3 : digitsOk fp = true)
    (hr : numSafe rest = true) :
    parseNum neg (ip.map digCh ++ ((if fp.isEmpty then [] else '.' :: fp.map digCh) ++ rest)) =
      some (Json.num neg ip fp, rest) := by
  have hne : (ip.map digCh).isEmpty = false := by
    cases ip with
    | nil => exact absurd rfl h1
    | cons d ds => simp
  cases fp with
  | nil =>
    simp only [List.isEmpty_nil, if_pos, List.nil_append]
    have htw := takeWhile_append_all isDigitCh (ip.map digCh) rest
      (mapDigCh_all_digit ip h2) (numSafe_headNotB hr)
    simp only [parseNum, htw.1, htw.2, hne]
    simp only [Bool.false_eq_true, if_false, digits_roundtrip ip h2]
    cases rest with
    | nil => rfl
    | cons c t =>
      have hcd : c ≠ '.' := by
        simp only [numSafe, Bool.and_eq_true, Bool.not_eq_true'] at hr
        simpa using hr.2
      simp [hcd]
  | cons f fs =>
    have hd : headNotB isDigitCh ('.' :: ((f :: fs).map digCh ++ rest)) = true := by
      simp only [headNotB]
      decide
    have htw := takeWhile_append_all isDigitCh (ip.map digCh)
      ('.' :: ((f :: fs).map digCh ++ rest)) (mapDigCh_all_digit ip h2) hd
    have htw2 := takeWhile_append_all isDigitCh ((f :: fs).map digCh) rest
      (mapDigCh_all_digit _ h3) (numSafe_headNotB hr)
    have hshape : ip.map digCh ++ ((if (f :: fs).isEmpty = true then []
        else '.' :: (f :: fs).map digCh) ++ rest) =
        ip.map digCh ++ ('.' :: ((f :: fs).map digCh ++ rest)) := by
      simp
    rw [hshape]
    simp only [parseNum, htw.1, htw.2, hne]
    simp only [Bool.false_eq_true, if_false, if_pos rfl, htw2.1, htw2.2]
    have hne2 : ((f :: fs).map digCh).isEmpty = false := by simp
    rw [hne2]
    simp only [Bool.false_eq_true, if_false, digits_roundtrip ip h2,
      digits_roundtrip (f :: fs) h3]
    simp

mutual

theorem jsize_le : ∀ (p : Bool) (i : Nat) (v : Json), jsize v ≤ (strVal p i v).length + 1
  | _, _, .null => by simp [jsize, strVal, lc]
  | _, _, .bool b => by cases b <;> simp [jsize, strVal, lc]
  | _, _, .num neg ip fp => by simp [jsize]
  | _, _, .str s => by simp [jsize]
  | p, i, .arr [] => by simp [jsize, jsizeL, strVal]
  | p, i, .arr (x :: xs) => by
    have h1 := jsize_le p (i + 2) x
    have h2 := jsizeL_le p (i + 2) xs
    simp only [jsize, jsizeL, strVal, List.length_cons, List.length_append]
    omega
  | p, i, .obj [] => by simp [jsize, jsizeM, strVal]
  | p, i, .obj ((k, v) :: ms) => by
    have h1 := strMember_le p (i + 2) k v
    have h2 := jsizeM_le p (i + 2) ms
    simp only [jsize, jsizeM, strVal, List.length_cons, List.length_append]
    omega
termination_by _ _ v => sizeOf v

theorem jsizeL_le : ∀ (p : Bool) (i : Nat) (xs : List Json),
    jsizeL xs ≤ (strItems p i xs).length + 1
  | _, _, [] => by simp [jsizeL, strItems]
  | p, i, y :: ys => by
    have h1 := jsize_le p i y
    have h2 := jsizeL_le p i ys
    simp only [jsizeL, strItems, List.length_cons, List.length_append]
    omega
termination_by _ _ xs => sizeOf xs

theorem jsizeM_le : ∀ (p : Bool) (i : Nat) (ms : List (List Char × Json)),
    jsizeM ms ≤ (strMembers p i ms).length + 1
  | _, _, [] => by simp [jsizeM, strMembers]
  | p, i, (k, v) :: ms => by
    have h1 := strMember_le p i k v
    have h2 := jsizeM_le p i ms
    simp only [jsizeM, strMembers, List.length_cons, List.length_append]
    omega
termination_by _ _ ms => sizeOf ms

theorem strMember_le : ∀ (p : Bool) (i : Nat) (k : List Char) (v : Json),
    1 + jsize v ≤ (strMember p i (k, v)).length
  | p, i, k, v => by
    have h1 := jsize_le p i v
    simp only [strMember, List.length_cons, List.length_append]
    omega
termination_by _ _ _ v => sizeOf v + 1

end

theorem roundAux : ∀ fuel : Nat, RTV fuel ∧ RTA fuel ∧ RTM fuel ∧ RTO fuel := by
  intro fuel
  induction fuel using Nat.strong_induction_on with
  | _ fuel ih =>
    cases fuel with
    | zero =>
      refine ⟨?_, ?_, ?_, ?_⟩
      · intro p i v rest _ hsz _
        have := jsize_pos v
        omega
      · intro p i xs w rest _ hsz _ _
        have := jsizeL_pos xs
        omega
      · intro p i k v rest _ hsz _
        have := jsize_pos v
        omega
      · intro p i ms w rest _ hsz _ _
        have := jsizeM_pos ms
        omega
    | succ g =>
      have ihg := ih g (Nat.lt_succ_self g)
      refine ⟨?_, ?_, ?_, ?_⟩
      · -- RTV
        intro p i v rest hwf hsz hns
        cases v with
        | null =>
          simp only [strVal, List.cons_append, List.nil_append, parseVal]
          simp [skipWs, List.dropWhile, isWsCh, afterLit]
        | bool b =>
          cases b <;>
            (simp only [strVal, List.cons_append, List.nil_append, parseVal]
             simp [skipWs, List.dropWhile, isWsCh, afterLit])
        | str s =>
          simp only [strVal, List.cons_append, List.append_assoc, List.singleton_append,
            parseVal]
          simp [skipWs, List.dropWhile, isWsCh, parseStringRest_esc]
        | num neg ip fp =>
          simp only [wf, Bool.and_eq_true, Bool.not_eq_true'] at hwf
          obtain ⟨⟨hip, hipok⟩, hfpok⟩ := hwf
          have hipne : ip ≠ [] := by
            intro he
            subst he
            simp at hip
          cases neg with
          | true =>
            simp only [strVal, if_pos, List.cons_append, List.append_assoc, List.nil_append,
              List.singleton_append, parseVal]
            rw [skipWs_cons_not _ (by decide)]
            have hlb : ¬(('-' : Char) = lbr) := by decide
            simp only [Char.reduceEq, if_true, if_false, reduceIte, hlb, if_false]
            exact parseNum_spec true ip fp rest hipne hipok hfpok hns
          | false =>
            cases ip with
            | nil => exact absurd rfl hipne
            | cons d ds =>
              have hd : d < 10 := by
                simp only [digitsOk, List.all_cons, Bool.and_eq_true,
                  decide_eq_true_eq] at hipok
                exact hipok.1
              obtain ⟨hdig, hnws, _, hn, ht, hf, hq, hlbkt, hlbr, hminus, _, _, _⟩ :=
                digCh_props d hd
              simp only [strVal, Bool.false_eq_true, if_false, List.nil_append, List.map_cons,
                List.cons_append, List.append_assoc, parseVal]
              rw [skipWs_cons_not _ hnws]
              simp only [hn, ht, hf, hq, hlbkt, hlbr, hminus, if_false, hdig, if_true]
              have := parseNum_spec false (d :: ds) fp rest (by simp) hipok hfpok hns
              simpa [List.map_cons, List.cons_append, List.append_assoc] using this
        | arr xs =>
          cases xs with
          | nil =>
            simp only [strVal, List.cons_append, List.singleton_append, parseVal]
            rw [skipWs_cons_not _ (by decide)]
            have hlb : ¬(('[' : Char) = lbr) := by decide
            simp only [Char.reduceEq, if_true, if_false, reduceIte, hlb, if_false]
            rw [skipWs_cons_not _ (by decide)]
            simp
          | cons x xs =>
            simp only [wf, wfL, Bool.and_eq_true] at hwf
            obtain ⟨hwx, hwxs⟩ := hwf
            simp only [jsize, jsizeL] at hsz
            have hns2 : numSafe (strItems p (i + 2) xs ++ (sepIf p i ++ ']' :: rest)) = true :=
              numSafe_items_cont p (i + 2) xs (sepIf p i) rest (wsOnly_sepIf p i)
            have hx := (ihg).1 p (i + 2) x
              (strItems p (i + 2) xs ++ (sepIf p i ++ ']' :: rest)) hwx (by omega) hns2
            have hxs := (ihg).2.1 p (i + 2) xs (sepIf p i) rest hwxs (by omega)
              (wsOnly_sepIf p i) hns
            have hgh := goodHead_strVal p (i + 2) x hwx
            obtain ⟨c0, t0, he0, hnws0, hne0⟩ := goodHead_elim hgh
            have hskA : skipWs (sepIf p (i + 2) ++ (strVal p (i + 2) x ++
                (strItems p (i + 2) xs ++ (sepIf p i ++ ']' :: rest)))) =
                strVal p (i + 2) x ++ (strItems p (i + 2) xs ++ (sepIf p i ++ ']' :: rest)) := by
              rw [skipWs_append_ws _ _ (wsOnly_sepIf p (i + 2))]
              exact skipWs_goodHead _ hgh
            have hpv : parseVal g (sepIf p (i + 2) ++ (strVal p (i + 2) x ++
                (strItems p (i + 2) xs ++ (sepIf p i ++ ']' :: rest)))) =
                some (x, strItems p (i + 2) xs ++ (sepIf p i ++ ']' :: rest)) := by
              rw [← parseVal_skipWs g, hskA]
              exact hx
            simp only [strVal, List.cons_append, List.append_assoc, List.singleton_append,
              List.nil_append, parseVal]
            rw [skipWs_cons_not _ (by decide)]
            have hlb : ¬(('[' : Char) = lbr) := by decide
            simp only [Char.reduceEq, if_true, if_false, reduceIte, hlb, if_false]
            rw [hskA, he0]
            have hpv' := hpv
            rw [he0] at hpv'
            simp only [List.cons_append, List.append_assoc] at hpv'
            simp only [List.cons_append, if_neg hne0, hpv', hxs]
        | obj ms =>
          cases ms with
          | nil =>
            have h1 : isWsCh lbr = false := by decide
            have h2 : isWsCh rbr = false := by decide
            have hn : ¬(lbr = 'n') := by decide
            have ht : ¬(lbr = 't') := by decide
            have hf : ¬(lbr = 'f') := by decide
            have hq : ¬(lbr = '\"') := by decide
            have hk : ¬(lbr = '[') := by decide
            simp only [strVal, List.cons_append, List.singleton_append, parseVal]
            rw [skipWs_cons_not _ h1]
            simp only [hn, ht, hf, hq, hk, if_false, if_pos rfl]
            rw [skipWs_cons_not _ h2]
            simp
          | cons m ms =>
            obtain ⟨k, v⟩ := m
            simp only [wf, wfM, Bool.and_eq_true] at hwf
            obtain ⟨hwv, hwms⟩ := hwf
            simp only [jsize, jsizeM] at hsz
            have hns2 : numSafe (strMembers p (i + 2) ms ++ (sepIf p i ++ rbr :: rest)) = true :=
              numSafe_members_cont p (i + 2) ms (sepIf p i) rest (wsOnly_sepIf p i)
            have hm := (ihg).2.2.1 p (i + 2) k v
              (strMembers p (i + 2) ms ++ (sepIf p i ++ rbr :: rest)) hwv (by omega) hns2
            have hms := (ihg).2.2.2 p (i + 2) ms (sepIf p i) rest hwms (by omega)
              (wsOnly_sepIf p i) hns
            have hghm : goodHead (strMember p (i + 2) (k, v)) = true := by
              simp [strMember, goodHead, isWsCh]
            have hskA : skipWs (sepIf p (i + 2) ++ (strMember p (i + 2) (k, v) ++
                (strMembers p (i + 2) ms ++ (sepIf p i ++ rbr :: rest)))) =
                strMember p (i + 2) (k, v) ++
                  (strMembers p (i + 2) ms ++ (sepIf p i ++ rbr :: rest)) := by
              rw [skipWs_append_ws _ _ (wsOnly_sepIf p (i + 2))]
              exact skipWs_goodHead _ hghm
            have hpm : parseMember g (sepIf p (i + 2) ++ (strMember p (i + 2) (k, v) ++
                (strMembers p (i + 2) ms ++ (sepIf p i ++ rbr :: rest)))) =
                some ((k, v), strMembers p (i + 2) ms ++ (sepIf p i ++ rbr :: rest)) := by
              rw [← parseMember_skipWs g, hskA]
              exact hm
            have h1 : isWsCh lbr = false := by decide
            have hn : ¬(lbr = 'n') := by decide
            have ht : ¬(lbr = 't') := by decide
            have hf : ¬(lbr = 'f') := by decide
            have hq : ¬(lbr = '\"') := by decide
            have hk : ¬(lbr = '[') := by decide
            have hqr : ¬(('\"' : Char) = rbr) := by decide
            simp only [strVal, List.cons_append, List.append_assoc, List.singleton_append,
              List.nil_append, parseVal]
            rw [skipWs_cons_not _ h1]
            simp only [hn, ht, hf, hq, hk, if_false, if_pos rfl]
            rw [hskA]
            simp only [strMember, List.cons_append, List.append_assoc]
            simp only [if_neg hqr]
            have hpm2 := hpm
            simp only [strMember, List.cons_append, List.append_assoc] at hpm2
            simp only [hpm2, hms, if_true]
      · -- RTA
        intro p i xs w rest hwf hsz hws hns
        cases xs with
        | nil =>
          simp only [strItems, List.nil_append, parseArrItems]
          rw [skipWs_append_ws _ _ hws, skipWs_cons_not _ (by decide)]
          simp
        | cons y ys =>
          simp only [wfL, Bool.and_eq_true] at hwf
          obtain ⟨hwy, hwys⟩ := hwf
          simp only [jsizeL] at hsz
          have hns2 : numSafe (strItems p i ys ++ (w ++ ']' :: rest)) = true :=
            numSafe_items_cont p i ys w rest hws
          have hy := (ihg).1 p i y (strItems p i ys ++ (w ++ ']' :: rest)) hwy (by omega) hns2
          have hys := (ihg).2.1 p i ys w rest hwys (by omega) hws hns
          have hgh := goodHead_strVal p i y hwy
          have hskA : skipWs (sepIf p i ++ (strVal p i y ++
              (strItems p i ys ++ (w ++ ']' :: rest)))) =
              strVal p i y ++ (strItems p i ys ++ (w ++ ']' :: rest)) := by
            rw [skipWs_append_ws _ _ (wsOnly_sepIf p i)]
            exact skipWs_goodHead _ hgh
          have hpv : parseVal g (sepIf p i ++ (strVal p i y ++
              (strItems p i ys ++ (w ++ ']' :: rest)))) =
              some (y, strItems p i ys ++ (w ++ ']' :: rest)) := by
            rw [← parseVal_skipWs g, hskA]
            exact hy
          simp only [strItems, List.cons_append, List.append_assoc, List.nil_append, parseArrItems]
          rw [skipWs_cons_not _ (by decide)]
          simp only [Char.reduceEq, if_true, if_false, reduceIte, hpv, hys]
      · -- RTM
        intro p i k v rest hwf hsz hns
        have hgh := goodHead_strVal p i v hwf
        have hskA : skipWs ((if p then [' '] else []) ++ (strVal p i v ++ rest)) =
            strVal p i v ++ rest := by
          rw [skipWs_append_ws _ _ (wsOnly_spc p)]
          exact skipWs_goodHead _ hgh
        have hpv : parseVal g ((if p then [' '] else []) ++ (strVal p i v ++ rest)) =
            some (v, rest) := by
          rw [← parseVal_skipWs g, hskA]
          exact (ihg).1 p i v rest hwf (by omega) hns
        have hsk2 : skipWs (':' :: ((if p then [' '] else []) ++ (strVal p i v ++ rest))) =
            ':' :: ((if p then [' '] else []) ++ (strVal p i v ++ rest)) :=
          skipWs_cons_not _ (by decide)
        simp only [strMember, List.cons_append, List.append_assoc, List.nil_append, parseMember]
        rw [skipWs_cons_not _ (by decide)]
        simp only [Char.reduceEq, if_true, if_false, reduceIte]
        rw [parseStringRest_esc]
        simp only [hsk2, Char.reduceEq, if_true, reduceIte, hpv]
      · -- RTO
        intro p i ms w rest hwf hsz hws hns
        cases ms with
        | nil =>
          have h2 : isWsCh rbr = false := by decide
          simp only [strMembers, List.nil_append, parseObjItems]
          rw [skipWs_append_ws _ _ hws, skipWs_cons_not _ h2]
          simp
        | cons m ms =>
          obtain ⟨k, v⟩ := m
          simp only [wfM, Bool.and_eq_true] at hwf
          obtain ⟨hwv, hwms⟩ := hwf
          simp only [jsizeM] at hsz
          have hns2 : numSafe (strMembers p i ms ++ (w ++ rbr :: rest)) = true :=
            numSafe_members_cont p i ms w rest hws
          have hm := (ihg).2.2.1 p i k v (strMembers p i ms ++ (w ++ rbr :: rest)) hwv
            (by omega) hns2
          have hms := (ihg).2.2.2 p i ms w rest hwms (by omega) hws hns
          have hghm : goodHead (strMember p i (k, v)) = true := by
            simp [strMember, goodHead, isWsCh]
          have hskA : skipWs (sepIf p i ++ (strMember p i (k, v) ++
              (strMembers p i ms ++ (w ++ rbr :: rest)))) =
              strMember p i (k, v) ++ (strMembers p i ms ++ (w ++ rbr :: rest)) := by
            rw [skipWs_append_ws _ _ (wsOnly_sepIf p i)]
            exact skipWs_goodHead _ hghm
          have hpm : parseMember g (sepIf p i ++ (strMember p i (k, v) ++
              (strMembers p i ms ++ (w ++ rbr :: rest)))) =
              some ((k, v), strMembers p i ms ++ (w ++ rbr :: rest)) := by
            rw [← parseMember_skipWs g, hskA]
            exact hm
          have hcr : ¬((',' : Char) = rbr) := by decide
          simp only [strMembers, List.cons_append, List.append_assoc, List.nil_append, parseObjItems]
          rw [skipWs_cons_not _ (by decide)]
          simp only [if_neg hcr, reduceIte, hpm, hms]

/-- `JSON.parse` inverts `JSON.stringify` (pretty or compact) on every
well-formed value: the pretty-printed config file always reads back. -/
theorem jsonParse_strVal (p : Bool) (v : Json) (h : wf v = true) :
    jsonParse (strVal p 0 v) = some v := by
  have hb : jsize v ≤ (strVal p 0 v).length + 1 := jsize_le p 0 v
  have hA := (roundAux ((strVal p 0 v).length + 1)).1 p 0 v [] h hb rfl
  rw [List.append_nil] at hA
  simp [jsonParse, hA, skipWs]

/-- The pretty-printed config file written by `writeConfig` always reads
back as the same value. -/
theorem readConfig_write (V : Json) (h : wf V = true) :
    readConfig (some (writeConfigText V)) = V := by
  simp [readConfig, writeConfigText, jsonParse_strVal true V h]

theorem handle_post_ok (pubRoot : List (List Char)) (w : World) (B : List Char) (V : Json)
    (hB : jsonParse B = some V) (hdisk : w.diskOk = true) :
    handleRequest pubRoot w ⟨lc "POST", lc "/update-config", B⟩ =
      ({ status := 200, headers := corsHdrs ++ [(ctHdr, lc "application/json")],
         body := successBody }, some (writeConfigText V)) := by
  have e1 : stripQuery (lc "/update-config") = lc "/update-config" := by decide
  have e2 : isApiPath (lc "/update-config") = true := by decide
  have e3 : (lc "POST" == lc "OPTIONS") = false := by decide
  have e4 : (lc "POST" == lc "GET") = false := by decide
  have e5 : (lc "POST" == lc "POST") = true := by decide
  have e6 : (lc "/update-config" == lc "/update-config") = true := by decide
  simp only [handleRequest, e1, e2, e3, e4, e5, e6, Bool.and_false, Bool.and_true, Bool.false_and,
    Bool.true_and, if_false, if_true, Bool.false_eq_true, hB, hdisk]

theorem handle_post_bad (pubRoot : List (List Char)) (w : World) (B : List Char)
    (hB : jsonParse B = none) :
    handleRequest pubRoot w ⟨lc "POST", lc "/update-config", B⟩ =
      ({ status := 400, headers := corsHdrs ++ [(ctHdr, lc "application/json")],
         body := errorBody }, w.configFile) := by
  have e1 : stripQuery (lc "/update-config") = lc "/update-config" := by decide
  have e2 : isApiPath (lc "/update-config") = true := by decide
  have e3 : (lc "POST" == lc "OPTIONS") = false := by decide
  have e4 : (lc "POST" == lc "GET") = false := by decide
  have e5 : (lc "POST" == lc "POST") = true := by decide
  have e6 : (lc "/update-config" == lc "/update-config") = true := by decide
  simp only [handleRequest, e1, e2, e3, e4, e5, e6, Bool.and_false, Bool.and_true, Bool.false_and,
    Bool.true_and, if_false, if_true, Bool.false_eq_true, hB]

theorem handle_post_diskfail (pubRoot : List (List Char)) (w : World) (B : List Char) (V : Json)
    (hB : jsonParse B = some V) (hdisk : w.diskOk = false) :
    handleRequest pubRoot w ⟨lc "POST", lc "/update-config", B⟩ =
      ({ status := 400, headers := corsHdrs ++ [(ctHdr, lc "application/json")],
         body := errorBody }, w.configFile) := by
  have e1 : stripQuery (lc "/update-config") = lc "/update-config" := by decide
  have e2 : isApiPath (lc "/update-config") = true := by decide
  have e3 : (lc "POST" == lc "OPTIONS") = false := by decide
  have e4 : (lc "POST" == lc "GET") = false := by decide
  have e5 : (lc "POST" == lc "POST") = true := by decide
  have e6 : (lc "/update-config" == lc "/update-config") = true := by decide
  simp only [handleRequest, e1, e2, e3, e4, e5, e6, Bool.and_false, Bool.and_true, Bool.false_and,
    Bool.true_and, if_false, if_true, Bool.false_eq_true, hB, hdisk]

theorem handle_get_config (pubRoot : List (List Char)) (w : World) (b : List Char) :
    handleRequest pubRoot w ⟨lc "GET", lc "/config", b⟩ =
      ({ status := 200, headers := corsHdrs ++ [(ctHdr, lc "application/json")],
         body := strVal false 0 (readConfig w.configFile) }, w.configFile) := by
  have e1 : stripQuery (lc "/config") = lc "/config" := by decide
  have e2 : isApiPath (lc "/config") = true := by decide
  have e3 : (lc "GET" == lc "OPTIONS") = false := by decide
  have e4 : (lc "GET" == lc "GET") = true := by decide
  have e5 : (lc "/config" == lc "/config") = true := by decide
  simp only [handleRequest, e1, e2, e3, e4, e5, Bool.and_false, Bool.and_true, Bool.false_and,
    Bool.true_and, if_false, if_true, Bool.false_eq_true]

/-- C1: for every well-formed JSON value V, a successful POST of V to
/update-config followed by a GET of /config returns a value deep-equal
to V: the handler persists `JSON.stringify(V, null, 2)`, `readConfig`
parses that text back to V, and the GET response body re-serializes V
(so parsing the response gives exactly V again). -/
theorem c1_post_then_get_roundtrip (pubRoot : List (List Char)) (w : World) (B : List Char)
    (V : Json) (hwf : wf V = true) (hB : jsonParse B = some V) (hdisk : w.diskOk = true) :
    (handleRequest pubRoot w ⟨lc "POST", lc "/update-config", B⟩).1.status = 200 ∧
    (handleRequest pubRoot w ⟨lc "POST", lc "/update-config", B⟩).2 =
      some (writeConfigText V) ∧
    readConfig (handleRequest pubRoot w ⟨lc "POST", lc "/update-config", B⟩).2 = V ∧
    (handleRequest pubRoot
        ⟨(handleRequest pubRoot w ⟨lc "POST", lc "/update-config", B⟩).2, w.diskOk, w.staticFile⟩
        ⟨lc "GET", lc "/config", []⟩).1.status = 200 ∧
    (handleRequest pubRoot
        ⟨(handleRequest pubRoot w ⟨lc "POST", lc "/update-config", B⟩).2, w.diskOk, w.staticFile⟩
        ⟨lc "GET", lc "/config", []⟩).1.body = strVal false 0 V ∧
    jsonParse (handleRequest pubRoot
        ⟨(handleRequest pubRoot w ⟨lc "POST", lc "/update-config", B⟩).2, w.diskOk, w.staticFile⟩
        ⟨lc "GET", lc "/config", []⟩).1.body = some V := by
  have hpost := handle_post_ok pubRoot w B V hB hdisk
  have hget := handle_get_config pubRoot
    ⟨some (writeConfigText V), w.diskOk, w.staticFile⟩ []
  refine ⟨by rw [hpost], by rw [hpost], ?_, ?_, ?_, ?_⟩
  · rw [hpost]
    exact readConfig_write V hwf
  · rw [hpost, hget]
  · rw [hpost, hget]
    simp [readConfig_write V hwf]
  · rw [hpost, hget]
    simp [readConfig_write V hwf, jsonParse_strVal false V hwf]

theorem c1_witness :
    wf vTest = true ∧ jsonParse bTest = some vTest ∧ wTest.diskOk = true ∧
    ((handleRequest rootTest wTest ⟨lc "POST", lc "/update-config", bTest⟩).1.status = 200 ∧
     (handleRequest rootTest wTest ⟨lc "POST", lc "/update-config", bTest⟩).2 =
       some (writeConfigText vTest) ∧
     readConfig (handleRequest rootTest wTest ⟨lc "POST", lc "/update-config", bTest⟩).2 =
       vTest ∧
     (handleRequest rootTest
         ⟨(handleRequest rootTest wTest ⟨lc "POST", lc "/update-config", bTest⟩).2,
           wTest.diskOk, wTest.staticFile⟩
         ⟨lc "GET", lc "/config", []⟩).1.status = 200 ∧
     (handleRequest rootTest
         ⟨(handleRequest rootTest wTest ⟨lc "POST", lc "/update-config", bTest⟩).2,
           wTest.diskOk, wTest.staticFile⟩
         ⟨lc "GET", lc "/config", []⟩).1.body = strVal false 0 vTest ∧
     jsonParse (handleRequest rootTest
         ⟨(handleRequest rootTest wTest ⟨lc "POST", lc "/update-config", bTest⟩).2,
           wTest.diskOk, wTest.staticFile⟩
         ⟨lc "GET", lc "/config", []⟩).1.body = some vTest) :=
  ⟨by decide, rfl, rfl,
    c1_post_then_get_roundtrip rootTest wTest bTest vTest (by decide) rfl rfl⟩

/-- C2: a POST body that is not well-formed JSON yields status 400 with
the JSON body from the claim, and the configuration file is left
exactly as it was (the parse failure short-circuits before
`writeConfig`). -/
theorem c2_malformed_post (pubRoot : List (List Char)) (w : World) (B : List Char)
    (hB : jsonParse B = none) :
    (handleRequest pubRoot w ⟨lc "POST", lc "/update-config", B⟩).1.status = 400 ∧
    (handleRequest pubRoot w ⟨lc "POST", lc "/update-config", B⟩).1.body =
      lc "\x7b\"status\":\"error\",\"message\":\"Invalid JSON\"\x7d" ∧
    (ctHdr, lc "application/json") ∈
      (handleRequest pubRoot w ⟨lc "POST", lc "/update-config", B⟩).1.headers ∧
    (handleRequest pubRoot w ⟨lc "POST", lc "/update-config", B⟩).2 = w.configFile := by
  have h := handle_post_bad pubRoot w B hB
  refine ⟨by rw [h], ?_, by rw [h]; simp, by rw [h]⟩
  rw [h]
  show errorBody = lc "\x7b\"status\":\"error\",\"message\":\"Invalid JSON\"\x7d"
  decide

theorem c2_witness :
    jsonParse (lc "not json") = none ∧
    ((handleRequest rootTest wTest ⟨lc "POST", lc "/update-config", lc "not json"⟩).1.status =
        400 ∧
     (handleRequest rootTest wTest ⟨lc "POST", lc "/update-config", lc "not json"⟩).1.body =
        lc "\x7b\"status\":\"error\",\"message\":\"Invalid JSON\"\x7d" ∧
     (ctHdr, lc "application/json") ∈
       (handleRequest rootTest wTest ⟨lc "POST", lc "/update-config", lc "not json"⟩).1.headers ∧
     (handleRequest rootTest wTest ⟨lc "POST", lc "/update-config", lc "not json"⟩).2 =
        wTest.configFile) :=
  ⟨rfl, c2_malformed_post rootTest wTest (lc "not json") rfl⟩

/-- C3: `readConfig` never propagates a failure — a missing/unreadable
file (`none`) and unparsable contents both yield the empty object — and
`GET /config` therefore always answers 200 with content type
application/json, with body the two-character text `\x7b\x7d` when the
file is absent. -/
theorem c3_readconfig_total (pubRoot : List (List Char)) (w : World) (b s : List Char) :
    (jsonParse s = none → readConfig (some s) = Json.obj []) ∧
    readConfig none = Json.obj [] ∧
    (handleRequest pubRoot w ⟨lc "GET", lc "/config", b⟩).1.status = 200 ∧
    (ctHdr, lc "application/json") ∈
      (handleRequest pubRoot w ⟨lc "GET", lc "/config", b⟩).1.headers ∧
    (w.configFile = none →
      (handleRequest pubRoot w ⟨lc "GET", lc "/config", b⟩).1.body = lc "\x7b\x7d") := by
  have h := handle_get_config pubRoot w b
  refine ⟨?_, rfl, by rw [h], by rw [h]; simp, ?_⟩
  · intro hn
    simp [readConfig, hn]
  · intro hn
    rw [h, hn]
    show strVal false 0 (readConfig none) = lc "\x7b\x7d"
    decide

theorem c3_witness :
    jsonParse (lc "not json") = none ∧ wTest.configFile = none ∧
    ((jsonParse (lc "not json") = none → readConfig (some (lc "not json")) = Json.obj []) ∧
     readConfig none = Json.obj [] ∧
     (handleRequest rootTest wTest ⟨lc "GET", lc "/config", []⟩).1.status = 200 ∧
     (ctHdr, lc "application/json") ∈
       (handleRequest rootTest wTest ⟨lc "GET", lc "/config", []⟩).1.headers ∧
     (wTest.configFile = none →
       (handleRequest rootTest wTest ⟨lc "GET", lc "/config", []⟩).1.body = lc "\x7b\x7d")) :=
  ⟨rfl, rfl, c3_readconfig_total rootTest wTest [] (lc "not json")⟩

/-- C7: repeating an identical successful POST leaves the persisted file
byte-identical to the state after the first POST — each write replaces
the file wholesale with `JSON.stringify(V, null, 2)`, so the second
write produces exactly the same bytes and the file still reads back as
V. -/
theorem c7_idempotent_post (pubRoot : List (List Char)) (w : World) (B : List Char)
    (V : Json) (hwf : wf V = true) (hB : jsonParse B = some V) (hdisk : w.diskOk = true) :
    (handleRequest pubRoot w ⟨lc "POST", lc "/update-config", B⟩).2 =
      some (writeConfigText V) ∧
    (handleRequest pubRoot
        ⟨(handleRequest pubRoot w ⟨lc "POST", lc "/update-config", B⟩).2, w.diskOk, w.staticFile⟩
        ⟨lc "POST", lc "/update-config", B⟩).2 =
      (handleRequest pubRoot w ⟨lc "POST", lc "/update-config", B⟩).2 ∧
    readConfig (handleRequest pubRoot
        ⟨(handleRequest pubRoot w ⟨lc "POST", lc "/update-config", B⟩).2, w.diskOk, w.staticFile⟩
        ⟨lc "POST", lc "/update-config", B⟩).2 = V := by
  have h1 := handle_post_ok pubRoot w B V hB hdisk
  have h2 := handle_post_ok pubRoot
    ⟨some (writeConfigText V), w.diskOk, w.staticFile⟩ B V hB hdisk
  refine ⟨by rw [h1], by rw [h1, h2], ?_⟩
  rw [h1, h2]
  exact readConfig_write V hwf

theorem c7_witness :
    wf vTest = true ∧ jsonParse bTest = some vTest ∧ wTest.diskOk = true ∧
    ((handleRequest rootTest wTest ⟨lc "POST", lc "/update-config", bTest⟩).2 =
       some (writeConfigText vTest) ∧
     (handleRequest rootTest
         ⟨(handleRequest rootTest wTest ⟨lc "POST", lc "/update-config", bTest⟩).2,
           wTest.diskOk, wTest.staticFile⟩
         ⟨lc "POST", lc "/update-config", bTest⟩).2 =
       (handleRequest rootTest wTest ⟨lc "POST", lc "/update-config", bTest⟩).2 ∧
     readConfig (handleRequest rootTest
         ⟨(handleRequest rootTest wTest ⟨lc "POST", lc "/update-config", bTest⟩).2,
           wTest.diskOk, wTest.staticFile⟩
         ⟨lc "POST", lc "/update-config", bTest⟩).2 = vTest) :=
  ⟨by decide, rfl, rfl, c7_idempotent_post rootTest wTest bTest vTest (by decide) rfl rfl⟩

/-- C8: an OPTIONS request whose query-stripped path starts with /config
or /update-config gets status 204, an empty body, and exactly the three
permissive CORS headers. -/
theorem c8_options_preflight (pubRoot : List (List Char)) (w : World) (u b : List Char)
    (hA : isApiPath (stripQuery u) = true) :
    handleRequest pubRoot w ⟨lc "OPTIONS", u, b⟩ =
      ({ status := 204, headers := corsHdrs, body := [] }, w.configFile) := by
  have e1 : (lc "OPTIONS" == lc "OPTIONS") = true := by decide
  simp only [handleRequest, hA, e1, Bool.and_true, if_true]

theorem c8_witness :
    isApiPath (stripQuery (lc "/config?x=1")) = true ∧
    handleRequest rootTest wTest ⟨lc "OPTIONS", lc "/config?x=1", []⟩ =
      ({ status := 204, headers := corsHdrs, body := [] }, wTest.configFile) :=
  ⟨rfl, c8_options_preflight rootTest wTest (lc "/config?x=1") [] rfl⟩

/-- C9: when the body parses but the disk write throws, the same `catch`
answers — status 400 with the Invalid JSON body, file unchanged — making
a disk failure externally indistinguishable from a parse failure (never
a 5xx). -/
theorem c9_write_failure_as_400 (pubRoot : List (List Char)) (w : World) (B B' : List Char)
    (V : Json) (hB : jsonParse B = some V) (hdisk : w.diskOk = false)
    (hB' : jsonParse B' = none) :
    handleRequest pubRoot w ⟨lc "POST", lc "/update-config", B⟩ =
      ({ status := 400, headers := corsHdrs ++ [(ctHdr, lc "application/json")],
         body := errorBody }, w.configFile) ∧
    handleRequest pubRoot w ⟨lc "POST", lc "/update-config", B⟩ =
      handleRequest pubRoot w ⟨lc "POST", lc "/update-config", B'⟩ := by
  have h1 := handle_post_diskfail pubRoot w B V hB hdisk
  have h2 := handle_post_bad pubRoot w B' hB'
  exact ⟨h1, by rw [h1, h2]⟩

theorem c9_witness :
    jsonParse bTest = some vTest ∧ wBadDisk.diskOk = false ∧ jsonParse (lc "x") = none ∧
    (handleRequest rootTest wBadDisk ⟨lc "POST", lc "/update-config", bTest⟩ =
       ({ status := 400, headers := corsHdrs ++ [(ctHdr, lc "application/json")],
          body := errorBody }, wBadDisk.configFile) ∧
     handleRequest rootTest wBadDisk ⟨lc "POST", lc "/update-config", bTest⟩ =
       handleRequest rootTest wBadDisk ⟨lc "POST", lc "/update-config", lc "x"⟩) :=
  ⟨rfl, rfl, rfl, c9_write_failure_as_400 rootTest wBadDisk bTest (lc "x") vTest rfl rfl rfl⟩

/-- C10: every request whose query-stripped path has the API prefix gets
the three CORS headers, whatever the method and whatever branch answers
(the headers are set before dispatch, so /configuration also gets
them). -/
theorem c10_cors_prefix (pubRoot : List (List Char)) (w : World) (req : Request)
    (hA : isApiPath (stripQuery req.url) = true) :
    ∃ t, (handleRequest pubRoot w req).1.headers = corsHdrs ++ t := by
  obtain ⟨m, u, b⟩ := req
  simp only [handleRequest, hA, if_true]
  repeat' first
  | exact ⟨[], rfl⟩
  | exact ⟨_, rfl⟩
  | split

theorem c10_witness :
    isApiPath (stripQuery (lc "/configuration?x=1")) = true ∧
    (∃ t, (handleRequest rootTest wTest
        ⟨lc "GET", lc "/configuration?x=1", []⟩).1.headers = corsHdrs ++ t) :=
  ⟨rfl, c10_cors_prefix rootTest wTest ⟨lc "GET", lc "/configuration?x=1", []⟩ rfl⟩

/-- C5: a request that is not a GET, not a POST to /update-config, and
not an OPTIONS preflight on an API path falls through to 405 with a
plain-text body, leaves the configuration file untouched, and the
response is the same whatever the request body (the body is never
read). -/
theorem c5_method_guard (pubRoot : List (List Char)) (w : World) (m u b b' : List Char)
    (hG : m ≠ lc "GET") (hP : ¬(m = lc "POST" ∧ stripQuery u = lc "/update-config"))
    (hO : ¬(m = lc "OPTIONS" ∧ isApiPath (stripQuery u) = true)) :
    (handleRequest pubRoot w ⟨m, u, b⟩).1.status = 405 ∧
    (ctHdr, lc "text/plain") ∈ (handleRequest pubRoot w ⟨m, u, b⟩).1.headers ∧
    (handleRequest pubRoot w ⟨m, u, b⟩).1.body = lc "Method Not Allowed" ∧
    (handleRequest pubRoot w ⟨m, u, b⟩).2 = w.configFile ∧
    handleRequest pubRoot w ⟨m, u, b⟩ = handleRequest pubRoot w ⟨m, u, b'⟩ := by
  have hg : (m == lc "GET") = false := by
    rw [beq_eq_false_iff_ne]
    exact hG
  have hcond : (isApiPath (stripQuery u) && (m == lc "OPTIONS")) = false := by
    cases hA : isApiPath (stripQuery u) with
    | false => simp
    | true =>
      have hm : m ≠ lc "OPTIONS" := fun hm => hO ⟨hm, hA⟩
      simp [beq_eq_false_iff_ne, hm]
  have hpost : ((m == lc "POST") && (stripQuery u == lc "/update-config")) = false := by
    by_cases hm : m = lc "POST"
    · have hu : stripQuery u ≠ lc "/update-config" := fun hu => hP ⟨hm, hu⟩
      simp [beq_eq_false_iff_ne, hu]
    · simp [beq_eq_false_iff_ne, hm]
  simp only [handleRequest, hcond, hg, hpost, Bool.false_eq_true, if_false]
  refine ⟨?_, ?_, ?_, ?_, ?_⟩ <;> simp

theorem c5_witness :
    (lc "PUT" ≠ lc "GET") ∧
    (¬(lc "PUT" = lc "POST" ∧ stripQuery (lc "/anything") = lc "/update-config")) ∧
    (¬(lc "PUT" = lc "OPTIONS" ∧ isApiPath (stripQuery (lc "/anything")) = true)) ∧
    ((handleRequest rootTest wTest ⟨lc "PUT", lc "/anything", lc "junk"⟩).1.status = 405 ∧
     (ctHdr, lc "text/plain") ∈
       (handleRequest rootTest wTest ⟨lc "PUT", lc "/anything", lc "junk"⟩).1.headers ∧
     (handleRequest rootTest wTest ⟨lc "PUT", lc "/anything", lc "junk"⟩).1.body =
       lc "Method Not Allowed" ∧
     (handleRequest rootTest wTest ⟨lc "PUT", lc "/anything", lc "junk"⟩).2 =
       wTest.configFile ∧
     handleRequest rootTest wTest ⟨lc "PUT", lc "/anything", lc "junk"⟩ =
       handleRequest rootTest wTest ⟨lc "PUT", lc "/anything", []⟩) :=
  ⟨by decide, by decide, by decide,
    c5_method_guard rootTest wTest (lc "PUT") (lc "/anything") (lc "junk") []
      (by decide) (by decide) (by decide)⟩

/-- C6: `getContentType` maps each of the ten known (lowercased)
extensions to its MIME type and everything else — unknown or missing
extension — to application/octet-stream. -/
theorem c6_content_type_table (pth : List Char) :
    ((extname pth).map lowerCh = lc ".html" → getContentType pth = lc "text/html") ∧
    ((extname pth).map lowerCh = lc ".css" → getContentType pth = lc "text/css") ∧
    ((extname pth).map lowerCh = lc ".js" → getContentType pth = lc "application/javascript") ∧
    ((extname pth).map lowerCh = lc ".json" → getContentType pth = lc "application/json") ∧
    ((extname pth).map lowerCh = lc ".png" → getContentType pth = lc "image/png") ∧
    ((extname pth).map lowerCh = lc ".jpg" → getContentType pth = lc "image/jpeg") ∧
    ((extname pth).map lowerCh = lc ".jpeg" → getContentType pth = lc "image/jpeg") ∧
    ((extname pth).map lowerCh = lc ".gif" → getContentType pth = lc "image/gif") ∧
    ((extname pth).map lowerCh = lc ".svg" → getContentType pth = lc "image/svg+xml") ∧
    ((extname pth).map lowerCh = lc ".ico" → getContentType pth = lc "image/x-icon") ∧
    ((extname pth).map lowerCh ∉ [lc ".html", lc ".css", lc ".js", lc ".json", lc ".png",
        lc ".jpg", lc ".jpeg", lc ".gif", lc ".svg", lc ".ico"] →
      getContentType pth = lc "application/octet-stream") := by
  refine ⟨?_, ?_, ?_, ?_, ?_, ?_, ?_, ?_, ?_, ?_, ?_⟩ <;> intro h
  case _ => simp only [getContentType, h]; decide
  case _ => simp only [getContentType, h]; decide
  case _ => simp only [getContentType, h]; decide
  case _ => simp only [getContentType, h]; decide
  case _ => simp only [getContentType, h]; decide
  case _ => simp only [getContentType, h]; decide
  case _ => simp only [getContentType, h]; decide
  case _ => simp only [getContentType, h]; decide
  case _ => simp only [getContentType, h]; decide
  case _ => simp only [getContentType, h]; decide
  case _ =>
    simp only [List.mem_cons, List.mem_singleton, not_or] at h
    obtain ⟨n1, n2, n3, n4, n5, n6, n7, n8, n9, n10⟩ := h
    simp [getContentType, n1, n2, n3, n4, n5, n6, n7, n8, n9, n10]

theorem c6_witness :
    (extname (lc "/a/index.HTML")).map lowerCh = lc ".html" ∧
    getContentType (lc "/a/index.HTML") = lc "text/html" ∧
    ((extname (lc "/a/data.bin")).map lowerCh ∉ [lc ".html", lc ".css", lc ".js", lc ".json",
        lc ".png", lc ".jpg", lc ".jpeg", lc ".gif", lc ".svg", lc ".ico"]) ∧
    getContentType (lc "/a/data.bin") = lc "application/octet-stream" :=
  ⟨by decide, (c6_content_type_table (lc "/a/index.HTML")).1 (by decide), by decide,
    (c6_content_type_table (lc "/a/data.bin")).2.2.2.2.2.2.2.2.2.2 (by decide)⟩

theorem splitSegsAux_dots : ∀ (n : Nat) (acc : List Char),
    splitSegsAux acc (dotsPath n) = acc.reverse :: List.replicate n ['.', '.']
  | 0, acc => by simp [dotsPath, splitSegsAux]
  | n + 1, acc => by
    simp [dotsPath, splitSegsAux, splitSegsAux_dots n, List.replicate_succ]

theorem foldl_normStep_normal : ∀ (segs : List (List Char)) (acc : List (List Char)),
    (∀ s ∈ segs, normalSeg s = true) → List.foldl normStep acc segs = acc ++ segs
  | [], acc, _ => by simp
  | s :: segs, acc, h => by
    have hs := h s (by simp)
    simp only [normalSeg, Bool.and_eq_true, Bool.not_eq_true'] at hs
    have h1 : ¬(s = [] ∨ s = ['.']) := by
      rintro (h' | h')
      · exact (beq_eq_false_iff_ne.mp hs.1.1) h'
      · exact (beq_eq_false_iff_ne.mp hs.1.2) h'
    have h2 : s ≠ ['.', '.'] := beq_eq_false_iff_ne.mp hs.2
    simp only [List.foldl_cons, normStep, if_neg h1, if_neg h2]
    rw [foldl_normStep_normal segs (acc ++ [s]) (fun x hx => h x (by simp [hx]))]
    simp

theorem foldl_normStep_dots : ∀ (n : Nat) (acc : List (List Char)), acc.length = n →
    List.foldl normStep acc (List.replicate n ['.', '.']) = []
  | 0, acc, h => by
    rw [List.length_eq_zero.mp h]
    rfl
  | n + 1, acc, h => by
    have hstep : normStep acc ['.', '.'] = acc.dropLast := by
      simp [normStep]
    rw [List.replicate_succ, List.foldl_cons, hstep]
    exact foldl_normStep_dots n acc.dropLast (by simp [List.length_dropLast, h])

/-- C4: the static-file resolution does not reject or canonicalize away
parent-directory components: for any nonempty normalized root there is a
request path built from `..` segments whose resolved location is outside
the root — the path-traversal gap the spec flags. -/
theorem c4_path_traversal_escape (root : List (List Char)) (hne : root ≠ [])
    (hnorm : ∀ s ∈ root, normalSeg s = true) :
    ∃ pth : List Char, ['.', '.'] ∈ splitSegs pth ∧
      root.isPrefixOf (resolveStatic root pth) = false := by
  refine ⟨dotsPath root.length, ?_, ?_⟩
  · rw [splitSegs, splitSegsAux_dots root.length []]
    cases root with
    | nil => exact absurd rfl hne
    | cons a t => simp [List.replicate_succ]
  · rw [resolveStatic, splitSegs, splitSegsAux_dots root.length [], normSegs,
      List.foldl_append, foldl_normStep_normal root [] hnorm]
    simp only [List.nil_append, List.foldl_cons]
    have hstep : normStep root (List.reverse []) = root := by simp [normStep]
    rw [hstep, foldl_normStep_dots root.length root rfl]
    cases root with
    | nil => exact absurd rfl hne
    | cons a t => rfl

theorem c4_witness :
    rootTest ≠ [] ∧ (∀ s ∈ rootTest, normalSeg s = true) ∧
    (∃ pth : List Char, ['.', '.'] ∈ splitSegs pth ∧
      rootTest.isPrefixOf (resolveStatic rootTest pth) = false) :=
  ⟨by decide, by decide, c4_path_traversal_escape rootTest (by decide) (by decide)⟩

